import Mathlib

/-!
Shallow embedding of the `wordfindgen` word-search generator
(`src/src/lib.rs`) and verification of its specification claims.

Modelling conventions:
* `i8`/`usize` coordinates are modelled as `Int`/`Nat`; the `usize::try_from`
  conversion (which panics on negative input) is modelled by `tryFromUsize`
  returning `Option Nat`.
* Grid cells are single characters (`Vec<Vec<String>>` in the source always
  holds one-character strings): the blank sentinel is the space character.
* Randomness is externalised: `rand::thread_rng().gen_range(0, n)` becomes an
  externally supplied natural number taken modulo `n`, and
  `SliceRandom::choose` becomes indexing by an external number modulo the
  list length.  Every concrete execution of the program corresponds to some
  choice of these streams.
-/

inductive Direction where
  | Right
  | UpRight
  | Up
  | UpLeft
  | Left
  | DownLeft
  | Down
  | DownRight
deriving DecidableEq

def Direction.incrementors : Direction → Int × Int
  | .Right => (1, 0)
  | .UpRight => (1, -1)
  | .Up => (0, -1)
  | .UpLeft => (-1, -1)
  | .Left => (-1, 0)
  | .DownLeft => (-1, 1)
  | .Down => (0, 1)
  | .DownRight => (1, 1)

def blank : Char := ' '

def alphabet : List Char := "ABCDEFGHIJKLMNOPQRSTUVWXYZ".data

/-- Reading a grid cell at already-converted `usize` coordinates
(`self.grid[q][p]` in the source); out-of-range reads default to `blank`
(in the verified executions all reads are in range). -/
def cellAtN (grid : List (List Char)) (p q : Nat) : Char :=
  (grid.getD q []).getD p blank

def cellAt (grid : List (List Char)) (xi yi : Int) : Char :=
  cellAtN grid xi.toNat yi.toNat

/-- The index-generation loop of `PuzzleGrid::get_indeces`, before the
`usize` conversion: starting at `(xi, yi)`, push the current coordinates
for every character and advance by the increments. -/
def get_indeces_go (xinc yinc : Int) : List Char → Int → Int → List Int × List Int
  | [], _, _ => ([], [])
  | _ :: cs, xi, yi =>
    let rest := get_indeces_go xinc yinc cs (xi + xinc) (yi + yinc)
    (xi :: rest.1, yi :: rest.2)

def get_indeces_int (word : List Char) (x y : Int) (dir : Direction) : List Int × List Int :=
  get_indeces_go dir.incrementors.1 dir.incrementors.2 word x y

/-- `usize::try_from(xi)` for an `i8` value: defined exactly when the value
is nonnegative (`.unwrap()` on a negative value panics in the source). -/
def tryFromUsize (i : Int) : Option Nat :=
  if 0 ≤ i then some i.toNat else none

def tryMap : List Int → Option (List Nat)
  | [] => some []
  | a :: as =>
    match tryFromUsize a, tryMap as with
    | some b, some bs => some (b :: bs)
    | _, _ => none

/-- `PuzzleGrid::get_indeces`: the `Vec<usize>` index lists; `none` models
the panic of `usize::try_from(..).unwrap()` on a negative coordinate. -/
def get_indeces (word : List Char) (x y : Int) (dir : Direction) :
    Option (List Nat × List Nat) :=
  match tryMap (get_indeces_int word x y dir).1, tryMap (get_indeces_int word x y dir).2 with
  | some xs, some ys => some (xs, ys)
  | _, _ => none

structure PuzzleGrid where
  grid : List (List Char)
  size : Int
  maxtries : Nat
  dir_choices : List Direction
  entries : List (List Char)
deriving DecidableEq

def PuzzleGrid.new (size : Int) (maxtries : Nat) (hard : Bool) : PuzzleGrid :=
  { grid := List.replicate size.toNat (List.replicate size.toNat blank)
    size := size
    maxtries := maxtries
    dir_choices :=
      if hard then
        [Direction.Right, Direction.UpRight, Direction.Up, Direction.UpLeft,
         Direction.Left, Direction.DownLeft, Direction.Down, Direction.DownRight]
      else
        [Direction.Right, Direction.UpRight, Direction.Up, Direction.Down,
         Direction.DownRight]
    entries := [] }

/-- The collision loop of `PuzzleGrid::placement_valid`: walk the word and
its two index lists in lockstep; a non-blank, non-matching cell returns
`false`. -/
def checkCells (grid : List (List Char)) : List Char → List Int → List Int → Bool
  | [], _, _ => true
  | _ :: _, [], _ => true
  | _ :: _, _ :: _, [] => true
  | c :: cs, xi :: xs, yi :: ys =>
    if cellAt grid xi yi = c ∨ cellAt grid xi yi = blank then checkCells grid cs xs ys
    else false

def PuzzleGrid.placement_valid (g : PuzzleGrid) (word : List Char) (x y : Int)
    (dir : Direction) : Bool :=
  let xe := word.foldl (fun p _ => (p.1 + dir.incrementors.1, p.2 + dir.incrementors.2)) (x, y)
  if 0 ≤ xe.1 ∧ xe.1 ≤ g.size ∧ 0 ≤ xe.2 ∧ xe.2 ≤ g.size then
    checkCells g.grid word (get_indeces_int word x y dir).1 (get_indeces_int word x y dir).2
  else false

/-- One loop iteration's random draws turned into a candidate:
`gen_range(0, size)` twice and `dir_choices.choose`.  An empty choice list
leaves the direction at its initial value `Right`, as in the source. -/
def PuzzleGrid.candidate (g : PuzzleGrid) (r : Nat × Nat × Nat) : Int × Int × Direction :=
  (((r.1 % g.size.toNat : Nat) : Int), ((r.2.1 % g.size.toNat : Nat) : Int),
    g.dir_choices.getD (r.2.2 % g.dir_choices.length) Direction.Right)

def candValid (g : PuzzleGrid) (w : List Char) (r : Nat × Nat × Nat) : Bool :=
  g.placement_valid w (g.candidate r).1 (g.candidate r).2.1 (g.candidate r).2.2

/-- The retry loop of `PuzzleGrid::place`: try candidates in order and stop
at the first valid one. -/
def findValid (g : PuzzleGrid) (w : List Char) :
    List (Nat × Nat × Nat) → Option (Int × Int × Direction)
  | [] => none
  | r :: rs => if candValid g w r then some (g.candidate r) else findValid g w rs

/-- `self.grid[q][p] = c` (writes with an out-of-range index are no-ops in
the model; in the verified executions all writes are in range). -/
def setCell (grid : List (List Char)) (p q : Nat) (c : Char) : List (List Char) :=
  grid.set q ((grid.getD q []).set p c)

def writeChars (grid : List (List Char)) : List (Char × Int × Int) → List (List Char)
  | [] => grid
  | e :: rest => writeChars (setCell grid e.2.1.toNat e.2.2.toNat e.1) rest

/-- The word's characters tagged with the coordinates they are written to. -/
def tagPositions : List Char → Int → Int → Int → Int → List (Char × Int × Int)
  | [], _, _, _, _ => []
  | c :: cs, x, y, dx, dy => (c, x, y) :: tagPositions cs (x + dx) (y + dy) dx dy

/-- The write loop of the success branch of `PuzzleGrid::place`. -/
def writeWord (grid : List (List Char)) (w : List Char) (x y : Int) (d : Direction) :
    List (List Char) :=
  writeChars grid (w.zip ((get_indeces_int w x y d).1.zip (get_indeces_int w x y d).2))

/-- `word.make_ascii_uppercase()` (`Char.toUpper` uppercases exactly the
ASCII lowercase letters). -/
def sanitize (word : String) : List Char := word.data.map Char.toUpper

def placeFailMsg (word : String) : String := word ++ " could not be placed in the puzzle"

/-- `PuzzleGrid::place`.  `rng` is the stream of random draws, one triple per
loop iteration; the loop `for _ in 1..self.maxtries` runs `maxtries - 1`
times.  Returns the updated grid together with the `Result`. -/
def PuzzleGrid.place (g : PuzzleGrid) (word : String) (rng : List (Nat × Nat × Nat)) :
    PuzzleGrid × Except String Unit :=
  match findValid g (sanitize word) (rng.take (g.maxtries - 1)) with
  | some c =>
    ({ g with entries := g.entries ++ [sanitize word],
              grid := writeWord g.grid (sanitize word) c.1 c.2.1 c.2.2 }, Except.ok ())
  | none => (g, Except.error (placeFailMsg word))

/-- The inner loop of `PuzzleGrid::fill_in` over one row; `p` is the column
index, used only to address the external randomness `r`. -/
def fillRow (r : Nat → Nat → Nat) (q : Nat) : Nat → List Char → List Char
  | _, [] => []
  | p, c :: cs =>
    (if c = blank then alphabet.getD (r q p % alphabet.length) 'A' else c)
      :: fillRow r q (p + 1) cs

def fillGrid (r : Nat → Nat → Nat) : Nat → List (List Char) → List (List Char)
  | _, [] => []
  | q, row :: rest => fillRow r q 0 row :: fillGrid r (q + 1) rest

/-- `PuzzleGrid::fill_in`: replace every blank cell by a letter of
`alphabet` chosen by the external randomness `r`. -/
def PuzzleGrid.fill_in (g : PuzzleGrid) (r : Nat → Nat → Nat) : PuzzleGrid :=
  { g with grid := fillGrid r 0 g.grid }

/-- Reading the grid from `(x, y)` along `d`, one step per character of
`w`: the round-trip observation. -/
def readCells (grid : List (List Char)) (w : List Char) (x y : Int) (d : Direction) :
    List Char :=
  ((get_indeces_int w x y d).1.zip (get_indeces_int w x y d).2).map
    fun p => cellAt grid p.1 p.2

def ReadsBack (grid : List (List Char)) (w : List Char) (x y : Int) (d : Direction) : Prop :=
  readCells grid w x y d = w

def commaStr : String := ","

def rowPrefixStr : String := ",,,"

def nlStr : String := "\n"

def rowOut (row : List Char) : String :=
  rowPrefixStr ++ String.intercalate commaStr (row.map fun c => String.mk [c]) ++ nlStr

def entriesOut : List (List Char) → Nat → String
  | [], _ => ""
  | e :: es, i =>
    let s := rowPrefixStr ++ String.mk e
    if i + 1 = 2 then s ++ nlStr ++ entriesOut es 0 else s ++ entriesOut es (i + 1)

/-- `PuzzleGrid::output`: the file contents written to the destination. -/
def PuzzleGrid.output (g : PuzzleGrid) : String :=
  String.join (g.grid.map rowOut) ++ nlStr ++ nlStr ++ nlStr ++ entriesOut g.entries 0

def tooLongMsg (word : String) (size : Nat) : String :=
  word ++ " is too long to fit in a " ++ toString size ++ " x " ++ toString size ++ " puzzle"

/-- The placement loop of `run`: place the words in order, stopping at (and
propagating) the first error.  `rngs` supplies one draw stream per word. -/
def placeAll : PuzzleGrid → List String → List (List (Nat × Nat × Nat)) →
    PuzzleGrid × Except String Unit
  | g, [], _ => (g, Except.ok ())
  | g, w :: ws, rngs =>
    match g.place w (rngs.headD []) with
    | (g1, Except.ok _) => placeAll g1 ws rngs.tail
    | (g1, Except.error e) => (g1, Except.error e)

/-- `run`, with the word list already read from the file and file writes
modelled by returning the two produced file contents
(`answer_key.csv` first, then `puzzle.csv`). -/
def run (size : Nat) (maxtries : Nat) (hard : Bool) (words : List String)
    (rngs : List (List (Nat × Nat × Nat))) (r : Nat → Nat → Nat) :
    Except String (String × String) :=
  match words.find? (fun w => decide (size < w.utf8ByteSize)) with
  | some w => Except.error (tooLongMsg w size)
  | none =>
    match placeAll (PuzzleGrid.new (Int.ofNat size) maxtries hard) words rngs with
    | (g, Except.ok _) => Except.ok (g.output, (g.fill_in r).output)
    | (_, Except.error e) => Except.error e

/-- Well-formedness of a grid of side `n`: the shape produced by
`PuzzleGrid::new` and preserved by all operations. -/
def GridWF (grid : List (List Char)) (n : Nat) : Prop :=
  grid.length = n ∧ ∀ row ∈ grid, row.length = n

def PuzzleGrid.WF (g : PuzzleGrid) : Prop := GridWF g.grid g.size.toNat

def isUpperLetter (c : Char) : Prop := 'A' ≤ c ∧ c ≤ 'Z'

def CellsOk (grid : List (List Char)) : Prop :=
  ∀ row ∈ grid, ∀ c ∈ row, c = blank ∨ isUpperLetter c

/-- The placement invariant: well-formed grid, and every recorded entry is
blank-free and can be read back from its placement cells. -/
def PlacedInv (g : PuzzleGrid) : Prop :=
  g.WF ∧ ∀ w ∈ g.entries, blank ∉ w ∧ ∃ x y d, ReadsBack g.grid w x y d

def posList (n : Nat) (x inc : Int) : List Int :=
  (List.range n).map fun i : Nat => x + (i : Int) * inc

def wordAB : String := "AB"

def wordABC : String := "ABC"

def wordASpaceB : String := "A B"

def wordXY : String := "XY"

def wordDigit : String := "3"

def wordThanks : String := "Thanks"

/-! ### Basic list lemmas -/

lemma getD_set_self {α : Type} (l : List α) (i : Nat) (a d : α) (h : i < l.length) :
    (l.set i a).getD i d = a := by
  induction l generalizing i with
  | nil => simp at h
  | cons x xs ih =>
    cases i with
    | zero => rfl
    | succ i => exact ih i (by simp only [List.length_cons] at h; omega)

lemma getD_set_ne {α : Type} (l : List α) (i j : Nat) (a d : α) (h : i ≠ j) :
    (l.set i a).getD j d = l.getD j d := by
  induction l generalizing i j with
  | nil => rfl
  | cons x xs ih =>
    cases i with
    | zero =>
      cases j with
      | zero => exact absurd rfl h
      | succ j => rfl
    | succ i =>
      cases j with
      | zero => rfl
      | succ j => exact ih i j (by omega)

lemma set_oob {α : Type} (l : List α) (i : Nat) (a : α) (h : l.length ≤ i) : l.set i a = l := by
  induction l generalizing i with
  | nil => rfl
  | cons x xs ih =>
    cases i with
    | zero => simp at h
    | succ i =>
      show x :: xs.set i a = x :: xs
      rw [ih i (by simp only [List.length_cons] at h; omega)]

lemma getD_oob {α : Type} (l : List α) (i : Nat) (d : α) (h : l.length ≤ i) : l.getD i d = d := by
  induction l generalizing i with
  | nil => rfl
  | cons x xs ih =>
    cases i with
    | zero => simp at h
    | succ i => exact ih i (by simp only [List.length_cons] at h; omega)

lemma getD_mem_or {α : Type} (l : List α) (i : Nat) (d : α) :
    l.getD i d ∈ l ∨ l.getD i d = d := by
  by_cases h : i < l.length
  · left
    rw [List.getD_eq_getElem l d h]
    exact List.getElem_mem h
  · right
    exact getD_oob l i d (by omega)

lemma forall_lt_succ_iff {n : Nat} {P : Nat → Prop} :
    (∀ i, i < n + 1 → P i) ↔ P 0 ∧ ∀ i, i < n → P (i + 1) := by
  constructor
  · exact fun h => ⟨h 0 (Nat.succ_pos n), fun i hi => h (i + 1) (Nat.succ_lt_succ hi)⟩
  · rintro ⟨h0, h⟩ i hi
    cases i with
    | zero => exact h0
    | succ i => exact h i (Nat.lt_of_succ_lt_succ hi)

/-! ### Coordinate sequences -/

lemma posList_length (n : Nat) (x inc : Int) : (posList n x inc).length = n := by
  simp [posList]

lemma posList_succ (n : Nat) (x inc : Int) :
    posList (n + 1) x inc = x :: posList n (x + inc) inc := by
  simp only [posList, List.range_succ_eq_map, List.map_cons, List.map_map, Function.comp]
  congr 1
  · push_cast
    ring
  · apply List.map_congr_left
    intro i _
    simp only [Function.comp_apply]
    push_cast
    ring

lemma posList_getD (n i : Nat) (x inc : Int) (h : i < n) :
    (posList n x inc).getD i 0 = x + i * inc := by
  rw [List.getD_eq_getElem _ _ (by simpa [posList_length] using h)]
  simp [posList]

lemma posList_mem {n : Nat} {x inc p : Int} (h : p ∈ posList n x inc) :
    ∃ i, i < n ∧ p = x + i * inc := by
  simp only [posList, List.mem_map, List.mem_range] at h
  obtain ⟨i, hi, rfl⟩ := h
  exact ⟨i, hi, rfl⟩

lemma foldl_incr (dx dy : Int) :
    ∀ (w : List Char) (x y : Int),
      w.foldl (fun p _ => (p.1 + dx, p.2 + dy)) (x, y) = (x + w.length * dx, y + w.length * dy)
  | [], x, y => by simp
  | c :: cs, x, y => by
    rw [List.foldl_cons, foldl_incr dx dy cs (x + dx) (y + dy)]
    simp only [List.length_cons]
    congr 1 <;> push_cast <;> ring

lemma get_indeces_go_eq (dx dy : Int) :
    ∀ (w : List Char) (x y : Int),
      get_indeces_go dx dy w x y = (posList w.length x dx, posList w.length y dy)
  | [], x, y => by simp [get_indeces_go, posList]
  | c :: cs, x, y => by
    simp only [get_indeces_go, get_indeces_go_eq dx dy cs (x + dx) (y + dy),
      List.length_cons, posList_succ]

lemma get_indeces_int_eq (w : List Char) (x y : Int) (d : Direction) :
    get_indeces_int w x y d =
      (posList w.length x d.incrementors.1, posList w.length y d.incrementors.2) :=
  get_indeces_go_eq _ _ w x y

lemma incrementors_cases (d : Direction) :
    (d.incrementors.1 = -1 ∨ d.incrementors.1 = 0 ∨ d.incrementors.1 = 1) ∧
    (d.incrementors.2 = -1 ∨ d.incrementors.2 = 0 ∨ d.incrementors.2 = 1) ∧
    ¬(d.incrementors.1 = 0 ∧ d.incrementors.2 = 0) := by
  cases d <;> decide

lemma tryMap_isSome {l : List Int} (h : ∀ a ∈ l, 0 ≤ a) : (tryMap l).isSome = true := by
  induction l with
  | nil => rfl
  | cons a as ih =>
    have ha : tryFromUsize a = some a.toNat := by
      simp [tryFromUsize, h a (by simp)]
    have has := ih (fun b hb => h b (by simp [hb]))
    cases htm : tryMap as with
    | none => rw [htm] at has; simp at has
    | some bs => simp [tryMap, ha, htm]

/-! ### Characterisation of `placement_valid` -/

lemma checkCells_posList (grid : List (List Char)) (w : List Char) :
    ∀ (x y dx dy : Int),
      checkCells grid w (posList w.length x dx) (posList w.length y dy) = true ↔
        ∀ i, i < w.length →
          (cellAt grid (x + i * dx) (y + i * dy) = w.getD i blank ∨
           cellAt grid (x + i * dx) (y + i * dy) = blank) := by
  induction w with
  | nil => intro x y dx dy; simp [checkCells]
  | cons c cs ih =>
    intro x y dx dy
    rw [List.length_cons, posList_succ, posList_succ, forall_lt_succ_iff]
    simp only [checkCells]
    by_cases hc : cellAt grid x y = c ∨ cellAt grid x y = blank
    · rw [if_pos hc, ih (x + dx) (y + dy) dx dy]
      constructor
      · intro h
        refine ⟨by simpa using hc, fun i hi => ?_⟩
        have h2 := h i hi
        have ex : x + dx + (i : Int) * dx = x + ((i + 1 : Nat) : Int) * dx := by push_cast; ring
        have ey : y + dy + (i : Int) * dy = y + ((i + 1 : Nat) : Int) * dy := by push_cast; ring
        rw [ex, ey] at h2
        simpa using h2
      · rintro ⟨h0, h⟩ i hi
        have h2 := h i hi
        have ex : x + dx + (i : Int) * dx = x + ((i + 1 : Nat) : Int) * dx := by push_cast; ring
        have ey : y + dy + (i : Int) * dy = y + ((i + 1 : Nat) : Int) * dy := by push_cast; ring
        rw [ex, ey]
        simpa using h2
    · rw [if_neg hc]
      simp only [Bool.false_eq_true, false_iff, not_and]
      intro h0
      exact absurd (by simpa using h0) hc

lemma placement_valid_iff (g : PuzzleGrid) (w : List Char) (x y : Int) (d : Direction) :
    g.placement_valid w x y d = true ↔
      (0 ≤ x + w.length * d.incrementors.1 ∧ x + w.length * d.incrementors.1 ≤ g.size ∧
       0 ≤ y + w.length * d.incrementors.2 ∧ y + w.length * d.incrementors.2 ≤ g.size) ∧
      ∀ i, i < w.length →
        (cellAt g.grid (x + i * d.incrementors.1) (y + i * d.incrementors.2) = w.getD i blank ∨
         cellAt g.grid (x + i * d.incrementors.1) (y + i * d.incrementors.2) = blank) := by
  unfold PuzzleGrid.placement_valid
  simp only [foldl_incr, get_indeces_int_eq]
  by_cases hb : 0 ≤ x + (w.length : Int) * d.incrementors.1 ∧
      x + (w.length : Int) * d.incrementors.1 ≤ g.size ∧
      0 ≤ y + (w.length : Int) * d.incrementors.2 ∧
      y + (w.length : Int) * d.incrementors.2 ≤ g.size
  · rw [if_pos hb, checkCells_posList]
    exact (and_iff_right hb).symm
  · rw [if_neg hb]
    simp only [Bool.false_eq_true, false_iff]
    exact fun h => hb h.1

lemma step_bound {inc x s : Int} {n i : Nat}
    (hinc : inc = -1 ∨ inc = 0 ∨ inc = 1)
    (hx0 : 0 ≤ x) (hx1 : x < s)
    (he0 : 0 ≤ x + n * inc) (he1 : x + n * inc ≤ s)
    (hi : i < n) :
    0 ≤ x + i * inc ∧ x + i * inc ≤ s - 1 := by
  rcases hinc with h | h | h <;> subst h <;>
    simp only [mul_neg_one, mul_zero, mul_one, add_zero] at * <;> omega

lemma valid_pos_bounds {g : PuzzleGrid} {w : List Char} {x y : Int} {d : Direction}
    (hx0 : 0 ≤ x) (hx1 : x < g.size) (hy0 : 0 ≤ y) (hy1 : y < g.size)
    (hv : g.placement_valid w x y d = true) :
    ∀ i, i < w.length →
      (0 ≤ x + i * d.incrementors.1 ∧ x + i * d.incrementors.1 ≤ g.size - 1) ∧
      (0 ≤ y + i * d.incrementors.2 ∧ y + i * d.incrementors.2 ≤ g.size - 1) := by
  obtain ⟨⟨hb1, hb2, hb3, hb4⟩, -⟩ := (placement_valid_iff g w x y d).mp hv
  obtain ⟨hdx, hdy, -⟩ := incrementors_cases d
  intro i hi
  exact ⟨step_bound hdx hx0 hx1 hb1 hb2 hi, step_bound hdy hy0 hy1 hb3 hb4 hi⟩

/-! ### Cell writes -/

lemma length_setCell (grid : List (List Char)) (p q : Nat) (c : Char) :
    (setCell grid p q c).length = grid.length := by
  simp [setCell]

lemma rowlen_setCell (grid : List (List Char)) (p q j : Nat) (c : Char) :
    ((setCell grid p q c).getD j []).length = (grid.getD j []).length := by
  unfold setCell
  by_cases hq : q = j
  · subst hq
    by_cases hlen : q < grid.length
    · rw [getD_set_self _ _ _ _ hlen]
      simp
    · rw [set_oob _ _ _ (by omega)]
  · rw [getD_set_ne _ _ _ _ _ hq]

lemma cellAtN_setCell (grid : List (List Char)) (p q a b : Nat) (c : Char) :
    cellAtN (setCell grid p q c) a b =
      if p = a ∧ q = b ∧ b < grid.length ∧ a < (grid.getD b []).length then c
      else cellAtN grid a b := by
  unfold cellAtN setCell
  by_cases hq : q = b
  · subst hq
    by_cases hql : q < grid.length
    · rw [getD_set_self _ _ _ _ hql]
      by_cases hp : p = a
      · subst hp
        by_cases hpl : p < (grid.getD q []).length
        · rw [getD_set_self _ _ _ _ hpl, if_pos ⟨rfl, rfl, hql, hpl⟩]
        · rw [set_oob _ _ _ (by omega), if_neg (by tauto)]
      · rw [getD_set_ne _ _ _ _ _ hp, if_neg (by tauto)]
    · rw [set_oob _ _ _ (by omega), if_neg (by tauto)]
  · rw [getD_set_ne _ _ _ _ _ hq, if_neg (by tauto)]

lemma GridWF_setCell {grid : List (List Char)} {n : Nat} (h : GridWF grid n)
    (p q : Nat) (c : Char) : GridWF (setCell grid p q c) n := by
  obtain ⟨h1, h2⟩ := h
  by_cases hql : q < grid.length
  · refine ⟨by simp [setCell, h1], ?_⟩
    intro row hrow
    unfold setCell at hrow
    rcases List.mem_or_eq_of_mem_set hrow with hmem | heq
    · exact h2 row hmem
    · rw [heq, List.length_set]
      refine h2 _ ?_
      rw [List.getD_eq_getElem _ _ hql]
      exact List.getElem_mem hql
  · have : setCell grid p q c = grid := by
      unfold setCell
      exact set_oob _ _ _ (by omega)
    rw [this]
    exact ⟨h1, h2⟩

lemma GridWF_writeChars {n : Nat} :
    ∀ (L : List (Char × Int × Int)) {grid : List (List Char)}, GridWF grid n →
      GridWF (writeChars grid L) n
  | [], _, h => h
  | e :: rest, grid, h => GridWF_writeChars rest (GridWF_setCell h _ _ _)

lemma length_writeChars :
    ∀ (L : List (Char × Int × Int)) (grid : List (List Char)),
      (writeChars grid L).length = grid.length
  | [], _ => rfl
  | e :: rest, grid => by
    simp only [writeChars]
    rw [length_writeChars rest, length_setCell]

lemma rowlen_writeChars :
    ∀ (L : List (Char × Int × Int)) (grid : List (List Char)) (j : Nat),
      ((writeChars grid L).getD j []).length = (grid.getD j []).length
  | [], _, _ => rfl
  | e :: rest, grid, j => by
    simp only [writeChars]
    rw [rowlen_writeChars rest, rowlen_setCell]

lemma cellAtN_writeChars_frame :
    ∀ (L : List (Char × Int × Int)) (grid : List (List Char)) (a b : Nat),
      (∀ e ∈ L, e.2.1.toNat = a ∧ e.2.2.toNat = b → e.1 = cellAtN grid a b) →
      cellAtN (writeChars grid L) a b = cellAtN grid a b
  | [], grid, a, b, _ => rfl
  | e :: rest, grid, a, b, h => by
    have hstep : cellAtN (setCell grid e.2.1.toNat e.2.2.toNat e.1) a b = cellAtN grid a b := by
      rw [cellAtN_setCell]
      by_cases hc : e.2.1.toNat = a ∧ e.2.2.toNat = b
      · rw [h e (by simp) hc]
        split <;> rfl
      · rw [if_neg (by tauto)]
    simp only [writeChars]
    rw [cellAtN_writeChars_frame rest _ a b
      (fun e2 he2 hc2 => by rw [hstep]; exact h e2 (List.mem_cons_of_mem _ he2) hc2), hstep]

lemma cellAtN_writeChars_mem :
    ∀ (L : List (Char × Int × Int)) (grid : List (List Char)) (c : Char) (a b : Nat),
      (∃ e ∈ L, e.1 = c ∧ e.2.1.toNat = a ∧ e.2.2.toNat = b) →
      (∀ e ∈ L, e.2.1.toNat = a ∧ e.2.2.toNat = b → e.1 = c) →
      b < grid.length → a < (grid.getD b []).length →
      cellAtN (writeChars grid L) a b = c
  | [], _, _, _, _, hex, _, _, _ => absurd hex (by simp)
  | e :: rest, grid, c, a, b, hex, hall, hb, ha => by
    simp only [writeChars]
    by_cases hc : e.2.1.toNat = a ∧ e.2.2.toNat = b
    · have he1 : e.1 = c := hall e (by simp) hc
      have hset : cellAtN (setCell grid e.2.1.toNat e.2.2.toNat e.1) a b = c := by
        rw [cellAtN_setCell, if_pos ⟨hc.1, hc.2, hb, ha⟩, he1]
      rw [cellAtN_writeChars_frame rest _ a b
        (fun e2 he2 hcc => by rw [hset]; exact hall e2 (List.mem_cons_of_mem _ he2) hcc), hset]
    · have hex2 : ∃ e2 ∈ rest, e2.1 = c ∧ e2.2.1.toNat = a ∧ e2.2.2.toNat = b := by
        obtain ⟨e2, he2, h1, h2, h3⟩ := hex
        rcases List.mem_cons.mp he2 with heq | hm
        · exact absurd ⟨h2, h3⟩ (heq ▸ hc)
        · exact ⟨e2, hm, h1, h2, h3⟩
      exact cellAtN_writeChars_mem rest _ c a b hex2
        (fun e2 he2 hcc => hall e2 (List.mem_cons_of_mem _ he2) hcc)
        (by rw [length_setCell]; exact hb)
        (by rw [rowlen_setCell]; exact ha)

/-! ### The write list of a placement -/

lemma tagPositions_mem :
    ∀ (w : List Char) (x y dx dy : Int) (e : Char × Int × Int),
      e ∈ tagPositions w x y dx dy ↔
        ∃ j, j < w.length ∧ e = (w.getD j blank, x + (j : Int) * dx, y + (j : Int) * dy)
  | [], x, y, dx, dy, e => by simp [tagPositions]
  | c :: cs, x, y, dx, dy, e => by
    simp only [tagPositions, List.mem_cons,
      tagPositions_mem cs (x + dx) (y + dy) dx dy e, List.length_cons]
    constructor
    · rintro (rfl | ⟨j, hj, rfl⟩)
      · exact ⟨0, by omega, by simp⟩
      · refine ⟨j + 1, by omega, ?_⟩
        simp only [List.getD_cons_succ, Prod.mk.injEq]
        exact ⟨trivial, by push_cast; ring, by push_cast; ring⟩
    · rintro ⟨j, hj, rfl⟩
      cases j with
      | zero => left; simp
      | succ j =>
        right
        refine ⟨j, by omega, ?_⟩
        simp only [List.getD_cons_succ, Prod.mk.injEq]
        exact ⟨trivial, by push_cast; ring, by push_cast; ring⟩

lemma zip_indeces_eq_tagPositions :
    ∀ (w : List Char) (x y : Int) (d : Direction),
      w.zip ((get_indeces_int w x y d).1.zip (get_indeces_int w x y d).2) =
        tagPositions w x y d.incrementors.1 d.incrementors.2
  | [], _, _, _ => rfl
  | c :: cs, x, y, d => by
    simp only [get_indeces_int, get_indeces_go, tagPositions, List.zip_cons_cons,
      List.cons.injEq]
    refine ⟨trivial, ?_⟩
    have ih := zip_indeces_eq_tagPositions cs (x + d.incrementors.1) (y + d.incrementors.2) d
    simpa [get_indeces_int] using ih

lemma writeWord_eq_writeChars (grid : List (List Char)) (w : List Char) (x y : Int)
    (d : Direction) :
    writeWord grid w x y d =
      writeChars grid (tagPositions w x y d.incrementors.1 d.incrementors.2) := by
  unfold writeWord
  rw [zip_indeces_eq_tagPositions]

/-! ### Reading back -/

lemma length_readCells (grid : List (List Char)) (w : List Char) (x y : Int) (d : Direction) :
    (readCells grid w x y d).length = w.length := by
  unfold readCells
  rw [get_indeces_int_eq]
  simp [posList_length]

lemma readCells_getD (grid : List (List Char)) (w : List Char) (x y : Int) (d : Direction)
    (i : Nat) (hi : i < w.length) :
    (readCells grid w x y d).getD i blank =
      cellAt grid (x + i * d.incrementors.1) (y + i * d.incrementors.2) := by
  unfold readCells
  rw [get_indeces_int_eq]
  rw [List.getD_eq_getElem _ _ (by simpa [posList_length] using hi)]
  simp [posList]

lemma ReadsBack_iff (grid : List (List Char)) (w : List Char) (x y : Int) (d : Direction) :
    ReadsBack grid w x y d ↔
      ∀ i, i < w.length →
        cellAt grid (x + i * d.incrementors.1) (y + i * d.incrementors.2) = w.getD i blank := by
  constructor
  · intro h i hi
    rw [← readCells_getD grid w x y d i hi]
    rw [ReadsBack] at h
    rw [h]
  · intro h
    apply List.ext_getElem (length_readCells grid w x y d)
    intro i h1 h2
    have h3 := h i h2
    rw [← readCells_getD grid w x y d i h2, List.getD_eq_getElem _ _ h1,
      List.getD_eq_getElem _ _ h2] at h3
    exact h3

/-! ### Filling in -/

lemma length_fillRow (r : Nat → Nat → Nat) (q : Nat) :
    ∀ (row : List Char) (s : Nat), (fillRow r q s row).length = row.length
  | [], _ => rfl
  | c :: cs, s => by
    simp only [fillRow, List.length_cons, length_fillRow r q cs (s + 1)]

lemma getD_fillRow (r : Nat → Nat → Nat) (q : Nat) :
    ∀ (row : List Char) (s i : Nat), i < row.length →
      (fillRow r q s row).getD i blank =
        if row.getD i blank = blank then alphabet.getD (r q (s + i) % alphabet.length) 'A'
        else row.getD i blank
  | [], _, i, h => by simp at h
  | c :: cs, s, 0, h => by simp [fillRow]
  | c :: cs, s, i + 1, h => by
    simp only [fillRow, List.getD_cons_succ]
    rw [show s + (i + 1) = s + 1 + i from by omega]
    exact getD_fillRow r q cs (s + 1) i (by simp only [List.length_cons] at h; omega)

lemma length_fillGrid (r : Nat → Nat → Nat) :
    ∀ (grid : List (List Char)) (s : Nat), (fillGrid r s grid).length = grid.length
  | [], _ => rfl
  | row :: rest, s => by
    simp only [fillGrid, List.length_cons, length_fillGrid r rest (s + 1)]

lemma getD_fillGrid (r : Nat → Nat → Nat) :
    ∀ (grid : List (List Char)) (s q : Nat), q < grid.length →
      (fillGrid r s grid).getD q [] = fillRow r (s + q) 0 (grid.getD q [])
  | [], _, q, h => by simp at h
  | row :: rest, s, 0, h => by simp [fillGrid]
  | row :: rest, s, q + 1, h => by
    simp only [fillGrid, List.getD_cons_succ]
    rw [show s + (q + 1) = s + 1 + q from by omega]
    exact getD_fillGrid r rest (s + 1) q (by simp only [List.length_cons] at h; omega)

lemma cellAtN_fillGrid (r : Nat → Nat → Nat) (grid : List (List Char)) (a b : Nat)
    (hb : b < grid.length) (ha : a < (grid.getD b []).length) :
    cellAtN (fillGrid r 0 grid) a b =
      if cellAtN grid a b = blank then alphabet.getD (r b a % alphabet.length) 'A'
      else cellAtN grid a b := by
  unfold cellAtN
  rw [getD_fillGrid r grid 0 b hb]
  simp only [Nat.zero_add]
  rw [getD_fillRow r b (grid.getD b []) 0 a ha]
  simp only [Nat.zero_add]

lemma cellAtN_oob (grid : List (List Char)) (a b : Nat)
    (h : ¬(b < grid.length ∧ a < (grid.getD b []).length)) :
    cellAtN grid a b = blank := by
  unfold cellAtN
  by_cases hb : b < grid.length
  · exact getD_oob _ _ _ (by push_neg at h; exact h hb)
  · rw [getD_oob grid b [] (by omega)]
    rfl

lemma cellAtN_fillGrid_of_ne (r : Nat → Nat → Nat) (grid : List (List Char)) (a b : Nat)
    (h : cellAtN grid a b ≠ blank) :
    cellAtN (fillGrid r 0 grid) a b = cellAtN grid a b := by
  by_cases hin : b < grid.length ∧ a < (grid.getD b []).length
  · rw [cellAtN_fillGrid r grid a b hin.1 hin.2, if_neg h]
  · exact absurd (cellAtN_oob grid a b hin) h

/-! ### The alphabet -/

instance (c : Char) : Decidable (isUpperLetter c) := by
  unfold isUpperLetter
  infer_instance

instance (grid : List (List Char)) (n : Nat) : Decidable (GridWF grid n) := by
  unfold GridWF
  infer_instance

instance (grid : List (List Char)) : Decidable (CellsOk grid) := by
  unfold CellsOk
  infer_instance

instance (grid : List (List Char)) (w : List Char) (x y : Int) (d : Direction) :
    Decidable (ReadsBack grid w x y d) := by
  unfold ReadsBack
  infer_instance

lemma alphabet_getD_letter (k : Nat) : isUpperLetter (alphabet.getD k 'A') := by
  rcases getD_mem_or alphabet k 'A' with h | h
  · exact (by decide : ∀ c ∈ alphabet, isUpperLetter c) _ h
  · rw [h]
    decide

lemma isUpperLetter_ne_blank {c : Char} (h : isUpperLetter c) : c ≠ blank := by
  intro hc
  subst hc
  revert h
  decide

/-! ### The retry loop -/

lemma getD_mem_of_lt {α : Type} (l : List α) (i : Nat) (d : α) (h : i < l.length) :
    l.getD i d ∈ l := by
  rw [List.getD_eq_getElem l d h]
  exact List.getElem_mem h

lemma cellAt_def (grid : List (List Char)) (xi yi : Int) :
    cellAt grid xi yi = cellAtN grid xi.toNat yi.toNat := rfl

lemma findValid_some :
    ∀ (l : List (Nat × Nat × Nat)) {g : PuzzleGrid} {w : List Char} {c : Int × Int × Direction},
      findValid g w l = some c → ∃ r ∈ l, c = g.candidate r ∧ candValid g w r = true
  | [], _, _, _, h => by simp [findValid] at h
  | r :: rs, g, w, c, h => by
    simp only [findValid] at h
    split at h
    next hc =>
      injection h with h2
      exact ⟨r, by simp, h2.symm, hc⟩
    next hc =>
      obtain ⟨r2, hr2, hcand, hv⟩ := findValid_some rs h
      exact ⟨r2, List.mem_cons_of_mem _ hr2, hcand, hv⟩

lemma findValid_none :
    ∀ (l : List (Nat × Nat × Nat)) (g : PuzzleGrid) (w : List Char),
      findValid g w l = none ↔ ∀ r ∈ l, candValid g w r = false
  | [], g, w => by simp [findValid]
  | r :: rs, g, w => by
    simp only [findValid]
    by_cases hc : candValid g w r = true
    · rw [if_pos hc]
      constructor
      · intro h
        exact absurd h (by simp)
      · intro h
        rw [h r (by simp)] at hc
        cases hc
    · rw [if_neg hc]
      rw [findValid_none rs g w]
      constructor
      · intro h r2 hr2
        rcases List.mem_cons.mp hr2 with heq | hm
        · subst heq
          simpa using hc
        · exact h r2 hm
      · intro h r2 hr2
        exact h r2 (List.mem_cons_of_mem _ hr2)

lemma candidate_bounds {g : PuzzleGrid} (hs : 0 < g.size) (r : Nat × Nat × Nat) :
    0 ≤ (g.candidate r).1 ∧ (g.candidate r).1 < g.size ∧
    0 ≤ (g.candidate r).2.1 ∧ (g.candidate r).2.1 < g.size := by
  unfold PuzzleGrid.candidate
  dsimp only
  have h0 : 0 < g.size.toNat := by omega
  have h1 : r.1 % g.size.toNat < g.size.toNat := Nat.mod_lt _ h0
  have h2 : r.2.1 % g.size.toNat < g.size.toNat := Nat.mod_lt _ h0
  omega

lemma candidate_dir_mem {g : PuzzleGrid} (hne : g.dir_choices ≠ []) (r : Nat × Nat × Nat) :
    (g.candidate r).2.2 ∈ g.dir_choices := by
  unfold PuzzleGrid.candidate
  dsimp only
  have hlen : 0 < g.dir_choices.length := List.length_pos.mpr hne
  rw [List.getD_eq_getElem _ _ (Nat.mod_lt _ hlen)]
  exact List.getElem_mem _

lemma place_ok_parts {g : PuzzleGrid} {word : String} {rng : List (Nat × Nat × Nat)}
    {g2 : PuzzleGrid} (h : g.place word rng = (g2, Except.ok ())) :
    ∃ c, findValid g (sanitize word) (rng.take (g.maxtries - 1)) = some c ∧
      g2 = { g with entries := g.entries ++ [sanitize word],
                    grid := writeWord g.grid (sanitize word) c.1 c.2.1 c.2.2 } := by
  unfold PuzzleGrid.place at h
  cases hfv : findValid g (sanitize word) (rng.take (g.maxtries - 1)) with
  | none =>
    rw [hfv] at h
    simp at h
  | some c =>
    rw [hfv] at h
    exact ⟨c, rfl, ((Prod.ext_iff.mp h).1).symm⟩

lemma place_err_state {g : PuzzleGrid} {word : String} {rng : List (Nat × Nat × Nat)}
    {g2 : PuzzleGrid} {e : String} (h : g.place word rng = (g2, Except.error e)) :
    g2 = g := by
  unfold PuzzleGrid.place at h
  cases hfv : findValid g (sanitize word) (rng.take (g.maxtries - 1)) with
  | none =>
    rw [hfv] at h
    exact ((Prod.ext_iff.mp h).1).symm
  | some c =>
    rw [hfv] at h
    simp at h

lemma place_err_iff (g : PuzzleGrid) (word : String) (rng : List (Nat × Nat × Nat)) :
    (g.place word rng).2 = Except.error (placeFailMsg word) ↔
      ∀ r ∈ rng.take (g.maxtries - 1), candValid g (sanitize word) r = false := by
  unfold PuzzleGrid.place
  cases hfv : findValid g (sanitize word) (rng.take (g.maxtries - 1)) with
  | none =>
    dsimp only
    constructor
    · intro _
      exact (findValid_none _ g (sanitize word)).mp hfv
    · intro _
      rfl
  | some c =>
    dsimp only
    constructor
    · intro h
      simp at h
    · intro hall
      exfalso
      obtain ⟨r, hrm, -, hv⟩ := findValid_some _ hfv
      rw [hall r hrm] at hv
      cases hv

lemma place_take (g : PuzzleGrid) (word : String) (rng : List (Nat × Nat × Nat)) :
    g.place word rng = g.place word (rng.take (g.maxtries - 1)) := by
  unfold PuzzleGrid.place
  rw [List.take_take, Nat.min_self]

lemma toNat_inj_of_nonneg {a b : Int} (ha : 0 ≤ a) (hb : 0 ≤ b) (h : a.toNat = b.toNat) :
    a = b := by omega

lemma pos_inj {d : Direction} {x y : Int} {i j : Nat}
    (hx : x + (i : Int) * d.incrementors.1 = x + (j : Int) * d.incrementors.1)
    (hy : y + (i : Int) * d.incrementors.2 = y + (j : Int) * d.incrementors.2) :
    i = j := by
  cases d <;> simp [Direction.incrementors] at hx hy <;> omega

/-! ### Cell-content preservation -/

lemma CellsOk_setCell {grid : List (List Char)} (h : CellsOk grid) {c : Char}
    (hc : c = blank ∨ isUpperLetter c) (p q : Nat) : CellsOk (setCell grid p q c) := by
  intro row hrow
  unfold setCell at hrow
  rcases List.mem_or_eq_of_mem_set hrow with hmem | heq
  · exact h row hmem
  · subst heq
    intro c2 hc2
    rcases List.mem_or_eq_of_mem_set hc2 with hm2 | he2
    · rcases getD_mem_or grid q [] with hg | hg
      · exact h _ hg c2 hm2
      · rw [hg] at hm2
        simp at hm2
    · exact he2 ▸ hc

lemma CellsOk_writeChars :
    ∀ (L : List (Char × Int × Int)) {grid : List (List Char)}, CellsOk grid →
      (∀ e ∈ L, e.1 = blank ∨ isUpperLetter e.1) → CellsOk (writeChars grid L)
  | [], _, h, _ => h
  | e :: rest, grid, h, hL => by
    simp only [writeChars]
    exact CellsOk_writeChars rest (CellsOk_setCell h (hL e (by simp)) _ _)
      (fun e2 he2 => hL e2 (by simp [he2]))

/-! ### The main placement lemma -/

lemma place_ok_main {g : PuzzleGrid} {word : String} {rng : List (Nat × Nat × Nat)}
    {g2 : PuzzleGrid} (hs : 0 < g.size) (hwf : g.WF)
    (h : g.place word rng = (g2, Except.ok ())) :
    g2.size = g.size ∧ g2.entries = g.entries ++ [sanitize word] ∧ g2.WF ∧
    (∃ x y d, ReadsBack g2.grid (sanitize word) x y d) ∧
    (∀ w2 x y d, blank ∉ w2 → ReadsBack g.grid w2 x y d → ReadsBack g2.grid w2 x y d) ∧
    ((∀ c2 ∈ sanitize word, c2 = blank ∨ isUpperLetter c2) → CellsOk g.grid →
      CellsOk g2.grid) := by
  obtain ⟨c, hfv, rfl⟩ := place_ok_parts h
  obtain ⟨r, hr, hcr, hcv⟩ := findValid_some _ hfv
  obtain ⟨hx0, hx1, hy0, hy1⟩ := candidate_bounds hs r
  rw [← hcr] at hx0 hx1 hy0 hy1
  unfold candValid at hcv
  rw [← hcr] at hcv
  have hcells := ((placement_valid_iff g (sanitize word) c.1 c.2.1 c.2.2).mp hcv).2
  have hbnd := valid_pos_bounds hx0 hx1 hy0 hy1 hcv
  obtain ⟨hlen, hrows⟩ := hwf
  dsimp only
  rw [writeWord_eq_writeChars]
  refine ⟨rfl, rfl, ?_, ?_, ?_, ?_⟩
  · exact GridWF_writeChars _ ⟨hlen, hrows⟩
  · refine ⟨c.1, c.2.1, c.2.2, (ReadsBack_iff _ _ _ _ _).mpr fun i hi => ?_⟩
    have hbi := hbnd i hi
    rw [cellAt_def]
    have hbrow : (c.2.1 + (i : Int) * c.2.2.incrementors.2).toNat < g.grid.length := by
      rw [hlen]
      omega
    refine cellAtN_writeChars_mem _ _ _ _ _
      ⟨_, (tagPositions_mem _ _ _ _ _ _).mpr ⟨i, hi, rfl⟩, rfl, rfl, rfl⟩ ?_ hbrow ?_
    · rintro e he ⟨hna, hnb2⟩
      obtain ⟨j, hj, rfl⟩ := (tagPositions_mem _ _ _ _ _ _).mp he
      have hbj := hbnd j hj
      have hxeq : c.1 + (j : Int) * c.2.2.incrementors.1 =
          c.1 + (i : Int) * c.2.2.incrementors.1 :=
        toNat_inj_of_nonneg hbj.1.1 hbi.1.1 hna
      have hyeq : c.2.1 + (j : Int) * c.2.2.incrementors.2 =
          c.2.1 + (i : Int) * c.2.2.incrementors.2 :=
        toNat_inj_of_nonneg hbj.2.1 hbi.2.1 hnb2
      rw [show j = i from pos_inj hxeq hyeq]
    · have hrowmem := getD_mem_of_lt g.grid _ [] hbrow
      rw [hrows _ hrowmem]
      omega
  · intro w2 x2 y2 d2 hnb hrb
    rw [ReadsBack_iff] at hrb ⊢
    intro i hi
    have hprev := hrb i hi
    have hne2 : w2.getD i blank ≠ blank := fun hq => hnb (hq ▸ getD_mem_of_lt w2 i blank hi)
    rw [cellAt_def] at hprev ⊢
    refine (cellAtN_writeChars_frame _ _ _ _ ?_).trans hprev
    rintro e he ⟨hna, hnb3⟩
    obtain ⟨j, hj, rfl⟩ := (tagPositions_mem _ _ _ _ _ _).mp he
    dsimp only at hna hnb3 ⊢
    have hcj := hcells j hj
    rw [cellAt_def] at hcj
    rw [hna, hnb3, hprev] at hcj
    rcases hcj with hcj | hcj
    · rw [hprev]
      exact hcj.symm
    · exact absurd hcj hne2
  · intro hchars hok
    refine CellsOk_writeChars _ hok ?_
    intro e he
    obtain ⟨j, hj, rfl⟩ := (tagPositions_mem _ _ _ _ _ _).mp he
    exact hchars _ (getD_mem_of_lt _ j blank hj)

/-! ### The placement loop of `run` -/

lemma PlacedInv_new (size : Int) (m : Nat) (hard : Bool) :
    PlacedInv (PuzzleGrid.new size m hard) := by
  refine ⟨⟨by simp [PuzzleGrid.new], ?_⟩, ?_⟩
  · intro row hrow
    simp only [PuzzleGrid.new] at hrow
    rw [List.eq_of_mem_replicate hrow]
    simp [PuzzleGrid.new]
  · intro w hw
    simp [PuzzleGrid.new] at hw

lemma placeAll_ok_main :
    ∀ (words : List String) (rngs : List (List (Nat × Nat × Nat))) {g g2 : PuzzleGrid},
      0 < g.size → PlacedInv g →
      (∀ w ∈ words, blank ∉ sanitize w) →
      placeAll g words rngs = (g2, Except.ok ()) →
      PlacedInv g2 ∧ g2.size = g.size
  | [], rngs, g, g2, _, hinv, _, h => by
    simp only [placeAll] at h
    have h1 : g = g2 := congrArg Prod.fst h
    exact ⟨h1 ▸ hinv, by rw [← h1]⟩
  | w :: ws, rngs, g, g2, hs, hinv, hb, h => by
    simp only [placeAll] at h
    cases hp : g.place w (rngs.headD []) with
    | mk g1 res =>
      rw [hp] at h
      cases res with
      | error e => simp at h
      | ok u =>
        cases u
        dsimp only at h
        obtain ⟨hsz, hent, hwf1, hnew, hpres, -⟩ := place_ok_main hs hinv.1 hp
        have hinv1 : PlacedInv g1 := by
          refine ⟨hwf1, ?_⟩
          intro w2 hw2
          rw [hent] at hw2
          rcases List.mem_append.mp hw2 with hmem | hmem
          · obtain ⟨hbw2, x, y, d, hrb⟩ := hinv.2 w2 hmem
            exact ⟨hbw2, x, y, d, hpres w2 x y d hbw2 hrb⟩
          · rw [List.mem_singleton.mp hmem]
            exact ⟨hb w (by simp), hnew⟩
        have hrec := placeAll_ok_main ws rngs.tail (by rw [hsz]; exact hs) hinv1
          (fun w2 hw2 => hb w2 (List.mem_cons_of_mem _ hw2)) h
        exact ⟨hrec.1, hrec.2.trans hsz⟩

lemma placeAll_cellsOk :
    ∀ (words : List String) (rngs : List (List (Nat × Nat × Nat))) {g g2 : PuzzleGrid},
      0 < g.size → g.WF → CellsOk g.grid →
      (∀ w ∈ words, ∀ c ∈ sanitize w, c = blank ∨ isUpperLetter c) →
      placeAll g words rngs = (g2, Except.ok ()) →
      CellsOk g2.grid
  | [], rngs, g, g2, _, _, hok, _, h => by
    simp only [placeAll] at h
    have h1 : g = g2 := congrArg Prod.fst h
    exact h1 ▸ hok
  | w :: ws, rngs, g, g2, hs, hwf, hok, hch, h => by
    simp only [placeAll] at h
    cases hp : g.place w (rngs.headD []) with
    | mk g1 res =>
      rw [hp] at h
      cases res with
      | error e => simp at h
      | ok u =>
        cases u
        dsimp only at h
        obtain ⟨hsz, -, hwf1, -, -, hcell⟩ := place_ok_main hs hwf hp
        exact placeAll_cellsOk ws rngs.tail (by rw [hsz]; exact hs) hwf1
          (hcell (hch w (by simp)) hok)
          (fun w2 hw2 => hch w2 (List.mem_cons_of_mem _ hw2)) h

lemma placeAll_cons_err {g g1 : PuzzleGrid} {w : String} {ws : List String}
    {rs : List (Nat × Nat × Nat)} {rngs : List (List (Nat × Nat × Nat))} {e : String}
    (h : g.place w rs = (g1, Except.error e)) :
    placeAll g (w :: ws) (rs :: rngs) = (g1, Except.error e) := by
  simp only [placeAll, List.headD_cons, h]

/-! ### `fill_in` -/

lemma ReadsBack_fillGrid {grid : List (List Char)} {w : List Char} {x y : Int} {d : Direction}
    (r : Nat → Nat → Nat) (hnb : blank ∉ w) (h : ReadsBack grid w x y d) :
    ReadsBack (fillGrid r 0 grid) w x y d := by
  rw [ReadsBack_iff] at h ⊢
  intro i hi
  have hcell := h i hi
  have hne : w.getD i blank ≠ blank := fun hq => hnb (hq ▸ getD_mem_of_lt w i blank hi)
  rw [cellAt_def] at hcell ⊢
  exact (cellAtN_fillGrid_of_ne r _ _ _ (fun hq => hne (hcell.symm.trans hq))).trans hcell

lemma fillRow_chars (r : Nat → Nat → Nat) (q : Nat) :
    ∀ (row : List Char) (s : Nat) (c2 : Char), c2 ∈ fillRow r q s row →
      c2 ∈ row ∨ isUpperLetter c2
  | [], _, c2, h => by simp [fillRow] at h
  | c :: cs, s, c2, h => by
    simp only [fillRow, List.mem_cons] at h
    rcases h with h | h
    · by_cases hb : c = blank
      · rw [if_pos hb] at h
        exact Or.inr (h ▸ alphabet_getD_letter _)
      · rw [if_neg hb] at h
        exact Or.inl (by simp [h])
    · rcases fillRow_chars r q cs (s + 1) c2 h with h2 | h2
      · exact Or.inl (by simp [h2])
      · exact Or.inr h2

lemma fillGrid_rows (r : Nat → Nat → Nat) :
    ∀ (grid : List (List Char)) (s : Nat) (row : List Char), row ∈ fillGrid r s grid →
      ∃ q orig, orig ∈ grid ∧ row = fillRow r q 0 orig
  | [], _, row, h => by simp [fillGrid] at h
  | row0 :: rest, s, row, h => by
    simp only [fillGrid, List.mem_cons] at h
    rcases h with h | h
    · exact ⟨s, row0, by simp, h⟩
    · obtain ⟨q, orig, hmem, heq⟩ := fillGrid_rows r rest (s + 1) row h
      exact ⟨q, orig, by simp [hmem], heq⟩

lemma CellsOk_fill (g : PuzzleGrid) (r : Nat → Nat → Nat) (h : CellsOk g.grid) :
    CellsOk (g.fill_in r).grid := by
  unfold PuzzleGrid.fill_in
  dsimp only
  intro row hrow
  obtain ⟨q, orig, hmem, rfl⟩ := fillGrid_rows r g.grid 0 row hrow
  intro c2 hc2
  rcases fillRow_chars r q orig 0 c2 hc2 with h2 | h2
  · exact h orig hmem c2 h2
  · exact Or.inr h2

lemma fill_cell_spec (g : PuzzleGrid) (r : Nat → Nat → Nat) (p q : Nat)
    (hq : q < g.grid.length) (hp : p < (g.grid.getD q []).length) :
    (cellAtN g.grid p q = blank → isUpperLetter (cellAtN (g.fill_in r).grid p q)) ∧
    (cellAtN g.grid p q ≠ blank → cellAtN (g.fill_in r).grid p q = cellAtN g.grid p q) := by
  unfold PuzzleGrid.fill_in
  dsimp only
  constructor
  · intro hb
    rw [cellAtN_fillGrid r g.grid p q hq hp, if_pos hb]
    exact alphabet_getD_letter _
  · intro hb
    exact cellAtN_fillGrid_of_ne r g.grid p q hb

/-! ### `run` -/

lemma run_too_long {size m : Nat} {hard : Bool} {words : List String} {w : String}
    (h : words.find? (fun w2 => decide (size < w2.utf8ByteSize)) = some w)
    (rngs : List (List (Nat × Nat × Nat))) (r : Nat → Nat → Nat) :
    run size m hard words rngs r = Except.error (tooLongMsg w size) := by
  unfold run
  rw [h]

lemma run_place_err {size m : Nat} {hard : Bool} {words : List String}
    {rngs : List (List (Nat × Nat × Nat))} {r : Nat → Nat → Nat} {e : String}
    (hok : words.find? (fun w2 => decide (size < w2.utf8ByteSize)) = none)
    (h : (placeAll (PuzzleGrid.new (Int.ofNat size) m hard) words rngs).2 = Except.error e) :
    run size m hard words rngs r = Except.error e := by
  unfold run
  rw [hok]
  cases hpa : placeAll (PuzzleGrid.new (Int.ofNat size) m hard) words rngs with
  | mk g res =>
    rw [hpa] at h
    dsimp only at h
    cases res with
    | ok u => exact absurd h (by simp)
    | error e2 => exact h ▸ rfl

lemma place_head_valid {g : PuzzleGrid} {word : String} {r : Nat × Nat × Nat}
    (hm : 2 ≤ g.maxtries) (hv : candValid g (sanitize word) r = true)
    (rng : List (Nat × Nat × Nat)) :
    g.place word (r :: rng) =
      ({ g with entries := g.entries ++ [sanitize word],
                grid := writeWord g.grid (sanitize word) (g.candidate r).1
                  (g.candidate r).2.1 (g.candidate r).2.2 }, Except.ok ()) := by
  unfold PuzzleGrid.place
  have htake : (r :: rng).take (g.maxtries - 1) = r :: rng.take (g.maxtries - 1 - 1) := by
    obtain ⟨k, hk⟩ : ∃ k, g.maxtries - 1 = k + 1 := ⟨g.maxtries - 2, by omega⟩
    rw [hk, List.take_succ_cons, show k + 1 - 1 = k from by omega]
  rw [htake]
  simp only [findValid, hv, if_true]

/-! ### Claims -/

/-- C1 (counterexample to the claim as stated): the round-trip property
fails when a placed word contains the blank sentinel.  On a 4×4 easy grid,
"A B" is successfully placed at (0,0) going Right; then "XY" is
successfully placed at (1,0) going Down, legally claiming the blank cell
inside "A B".  Afterwards "A B" is still in the placed-word list but
reading from its placement cell in its placement direction yields "AXB",
not "A B". -/
theorem claim_C1_counterexample :
    (((PuzzleGrid.new 4 9 false).place wordASpaceB [(0, 0, 0)]).2 = Except.ok ()) ∧
    ((((PuzzleGrid.new 4 9 false).place wordASpaceB [(0, 0, 0)]).1.place wordXY
        [(1, 0, 3)]).2 = Except.ok ()) ∧
    sanitize wordASpaceB ∈
      ((((PuzzleGrid.new 4 9 false).place wordASpaceB [(0, 0, 0)]).1.place wordXY
        [(1, 0, 3)]).1.entries) ∧
    readCells ((((PuzzleGrid.new 4 9 false).place wordASpaceB [(0, 0, 0)]).1.place wordXY
        [(1, 0, 3)]).1.grid) (sanitize wordASpaceB) 0 0 Direction.Right ≠
      sanitize wordASpaceB :=
  ⟨rfl, rfl, by decide, by decide⟩

/-- C1 (amended): after any sequence of successful `place` calls starting
from a fresh grid, followed by at most one `fill_in`, every word stored in
the placed-word list can be read back, character for character, from the
cell and direction at which it was placed — provided no placed word
contains the blank sentinel (space) character. -/
theorem claim_C1_round_trip {size : Int} {m : Nat} {hard : Bool}
    {words : List String} {rngs : List (List (Nat × Nat × Nat))} {g : PuzzleGrid}
    (hs : 0 < size)
    (hb : ∀ w ∈ words, blank ∉ sanitize w)
    (hok : placeAll (PuzzleGrid.new size m hard) words rngs = (g, Except.ok ()))
    (r : Nat → Nat → Nat) :
    (∀ w ∈ g.entries, ∃ x y d, ReadsBack g.grid w x y d) ∧
    (∀ w ∈ (g.fill_in r).entries, ∃ x y d, ReadsBack (g.fill_in r).grid w x y d) := by
  have hmain := placeAll_ok_main words rngs (g := PuzzleGrid.new size m hard)
    (by simpa [PuzzleGrid.new] using hs) (PlacedInv_new size m hard) hb hok
  obtain ⟨⟨hwf, hread⟩, -⟩ := hmain
  constructor
  · intro w hw
    obtain ⟨-, x, y, d, hrb⟩ := hread w hw
    exact ⟨x, y, d, hrb⟩
  · intro w hw
    rw [show (g.fill_in r).entries = g.entries from rfl] at hw
    obtain ⟨hnb, x, y, d, hrb⟩ := hread w hw
    exact ⟨x, y, d, ReadsBack_fillGrid r hnb hrb⟩

/-- C1 witness: a concrete successful run (grid 3, word "AB", then a
fill-in) on which the amended round-trip theorem applies. -/
theorem claim_C1_round_trip_witness :
    (∀ w ∈ (placeAll (PuzzleGrid.new 3 9 false) [wordAB] [[(0, 0, 0)]]).1.entries,
      ∃ x y d, ReadsBack (placeAll (PuzzleGrid.new 3 9 false) [wordAB]
        [[(0, 0, 0)]]).1.grid w x y d) ∧
    (∀ w ∈ ((placeAll (PuzzleGrid.new 3 9 false) [wordAB] [[(0, 0, 0)]]).1.fill_in
        (fun _ _ => 0)).entries,
      ∃ x y d, ReadsBack ((placeAll (PuzzleGrid.new 3 9 false) [wordAB]
        [[(0, 0, 0)]]).1.fill_in (fun _ _ => 0)).grid w x y d) :=
  claim_C1_round_trip (by decide) (by decide) rfl (fun _ _ => 0)

/-- C2: for any start cell inside the grid, `placement_valid` returns true
iff (1) the phantom end coordinate, one increment past the word's last
character, lies within `[0, size]` (inclusive) on both axes, and (2) every
cell the word would occupy holds the blank sentinel or exactly the
character the word requires there. -/
theorem claim_C2_placement_valid (g : PuzzleGrid) (w : List Char) (x y : Int) (d : Direction)
    (hx0 : 0 ≤ x) (hx1 : x < g.size) (hy0 : 0 ≤ y) (hy1 : y < g.size) :
    g.placement_valid w x y d = true ↔
      (0 ≤ x + w.length * d.incrementors.1 ∧ x + w.length * d.incrementors.1 ≤ g.size ∧
       0 ≤ y + w.length * d.incrementors.2 ∧ y + w.length * d.incrementors.2 ≤ g.size) ∧
      ∀ i, i < w.length →
        (cellAt g.grid (x + i * d.incrementors.1) (y + i * d.incrementors.2) =
            w.getD i blank ∨
         cellAt g.grid (x + i * d.incrementors.1) (y + i * d.incrementors.2) = blank) :=
  placement_valid_iff g w x y d

/-- C2 witness: the characterisation instantiated at a fresh 3×3 grid with
the word "AB" at (0,0) going Right. -/
theorem claim_C2_witness :
    (PuzzleGrid.new 3 9 false).placement_valid (sanitize wordAB) 0 0 Direction.Right = true ↔
      (0 ≤ (0 : Int) + (sanitize wordAB).length * Direction.Right.incrementors.1 ∧
       (0 : Int) + (sanitize wordAB).length * Direction.Right.incrementors.1 ≤
          (PuzzleGrid.new 3 9 false).size ∧
       0 ≤ (0 : Int) + (sanitize wordAB).length * Direction.Right.incrementors.2 ∧
       (0 : Int) + (sanitize wordAB).length * Direction.Right.incrementors.2 ≤
          (PuzzleGrid.new 3 9 false).size) ∧
      ∀ i, i < (sanitize wordAB).length →
        (cellAt (PuzzleGrid.new 3 9 false).grid
            ((0 : Int) + i * Direction.Right.incrementors.1)
            ((0 : Int) + i * Direction.Right.incrementors.2) = (sanitize wordAB).getD i blank ∨
         cellAt (PuzzleGrid.new 3 9 false).grid
            ((0 : Int) + i * Direction.Right.incrementors.1)
            ((0 : Int) + i * Direction.Right.incrementors.2) = blank) :=
  claim_C2_placement_valid (PuzzleGrid.new 3 9 false) (sanitize wordAB) 0 0 Direction.Right
    (by decide) (by decide) (by decide) (by decide)

/-- C3: the retry budget of `place`.  (1) `place` examines at most
`maxtries - 1` random draws; (2) each drawn coordinate lies in `[0, size)`;
(3) `place` fails exactly when none of the examined candidates is valid,
and the error message names the unplaced word; (4) the first valid
candidate is taken and the word is written there; (5) the placement loop
and (6) `run` propagate a placement error unchanged, without retrying. -/
theorem claim_C3_retry_budget :
    (∀ (g : PuzzleGrid) (word : String) (rng : List (Nat × Nat × Nat)),
      g.place word rng = g.place word (rng.take (g.maxtries - 1))) ∧
    (∀ (g : PuzzleGrid) (r : Nat × Nat × Nat), 0 < g.size →
      0 ≤ (g.candidate r).1 ∧ (g.candidate r).1 < g.size ∧
      0 ≤ (g.candidate r).2.1 ∧ (g.candidate r).2.1 < g.size) ∧
    (∀ (g : PuzzleGrid) (word : String) (rng : List (Nat × Nat × Nat)),
      (g.place word rng).2 = Except.error (placeFailMsg word) ↔
        ∀ r ∈ rng.take (g.maxtries - 1), candValid g (sanitize word) r = false) ∧
    (∀ (g : PuzzleGrid) (word : String) (r : Nat × Nat × Nat)
        (rng : List (Nat × Nat × Nat)), 2 ≤ g.maxtries →
      candValid g (sanitize word) r = true →
      g.place word (r :: rng) =
        ({ g with entries := g.entries ++ [sanitize word],
                  grid := writeWord g.grid (sanitize word) (g.candidate r).1
                    (g.candidate r).2.1 (g.candidate r).2.2 }, Except.ok ())) ∧
    (∀ (g g1 : PuzzleGrid) (w : String) (ws : List String) (rs : List (Nat × Nat × Nat))
        (rngs : List (List (Nat × Nat × Nat))) (e : String),
      g.place w rs = (g1, Except.error e) →
      placeAll g (w :: ws) (rs :: rngs) = (g1, Except.error e)) ∧
    (∀ (size m : Nat) (hard : Bool) (words : List String)
        (rngs : List (List (Nat × Nat × Nat))) (r : Nat → Nat → Nat) (e : String),
      words.find? (fun w2 => decide (size < w2.utf8ByteSize)) = none →
      (placeAll (PuzzleGrid.new (Int.ofNat size) m hard) words rngs).2 = Except.error e →
      run size m hard words rngs r = Except.error e) :=
  ⟨place_take, fun _ r hs => candidate_bounds hs r, place_err_iff,
    fun _ _ _ rng hm hv => place_head_valid hm hv rng,
    fun _ _ _ _ _ _ _ h => placeAll_cons_err h,
    fun _ _ _ _ _ _ _ hok h => run_place_err hok h⟩

/-- C3 witness: on a 1×1 grid with budget 5, the two-letter word "AB" fits
nowhere, so `place` fails with the error message naming it. -/
theorem claim_C3_witness :
    ((PuzzleGrid.new 1 5 false).place wordAB [(0, 0, 0), (0, 0, 1)]).2 =
      Except.error (placeFailMsg wordAB) :=
  (claim_C3_retry_budget.2.2.1 (PuzzleGrid.new 1 5 false) wordAB
    [(0, 0, 0), (0, 0, 1)]).mpr (by decide)

/-- C4 (counterexample to the claim as stated): the cell invariant "blank
or one uppercase letter" fails for words with non-letter characters.  The
word "3" is successfully placed on a fresh 3×3 grid, leaving the digit '3'
— neither the blank sentinel nor an uppercase letter — in cell (0,0). -/
theorem claim_C4_counterexample :
    (((PuzzleGrid.new 3 9 false).place wordDigit [(0, 0, 0)]).2 = Except.ok ()) ∧
    cellAtN (((PuzzleGrid.new 3 9 false).place wordDigit [(0, 0, 0)]).1.grid) 0 0 = '3' ∧
    ¬('3' = blank ∨ isUpperLetter '3') :=
  ⟨rfl, rfl, by decide⟩

/-- C4 (amended): provided every placed word consists of characters that
uppercase to uppercase letters A–Z, then after construction, after every
successful placement, and after `fill_in`, every grid cell is either the
blank sentinel or one uppercase letter, and every recorded entry was fully
written: it can be read back from its placement cells. -/
theorem claim_C4_invariant {size : Int} {m : Nat} {hard : Bool}
    {words : List String} {rngs : List (List (Nat × Nat × Nat))} {g : PuzzleGrid}
    (hs : 0 < size)
    (hch : ∀ w ∈ words, ∀ c ∈ sanitize w, isUpperLetter c)
    (hok : placeAll (PuzzleGrid.new size m hard) words rngs = (g, Except.ok ()))
    (r : Nat → Nat → Nat) :
    CellsOk (PuzzleGrid.new size m hard).grid ∧ CellsOk g.grid ∧
    CellsOk (g.fill_in r).grid ∧
    (∀ w ∈ g.entries, ∃ x y d, ReadsBack g.grid w x y d) := by
  have hnewok : CellsOk (PuzzleGrid.new size m hard).grid := by
    intro row hrow
    simp only [PuzzleGrid.new] at hrow
    rw [List.eq_of_mem_replicate hrow]
    intro c hc
    rw [List.eq_of_mem_replicate hc]
    exact Or.inl rfl
  have hgok := placeAll_cellsOk words rngs (by simpa [PuzzleGrid.new] using hs)
    (PlacedInv_new size m hard).1 hnewok
    (fun w hw c hc => Or.inr (hch w hw c hc)) hok
  have hmain := placeAll_ok_main words rngs (by simpa [PuzzleGrid.new] using hs)
    (PlacedInv_new size m hard)
    (fun w hw hmem => isUpperLetter_ne_blank (hch w hw blank hmem) rfl) hok
  refine ⟨hnewok, hgok, CellsOk_fill g r hgok, ?_⟩
  intro w hw
  obtain ⟨-, x, y, d, hrb⟩ := hmain.1.2 w hw
  exact ⟨x, y, d, hrb⟩

/-- C4 witness: a concrete successful run (grid 3, word "AB") on which the
amended invariant theorem applies. -/
theorem claim_C4_witness :
    CellsOk (PuzzleGrid.new 3 9 false).grid ∧
    CellsOk (placeAll (PuzzleGrid.new 3 9 false) [wordAB] [[(0, 0, 0)]]).1.grid ∧
    CellsOk ((placeAll (PuzzleGrid.new 3 9 false) [wordAB] [[(0, 0, 0)]]).1.fill_in
      (fun _ _ => 0)).grid ∧
    (∀ w ∈ (placeAll (PuzzleGrid.new 3 9 false) [wordAB] [[(0, 0, 0)]]).1.entries,
      ∃ x y d, ReadsBack (placeAll (PuzzleGrid.new 3 9 false) [wordAB]
        [[(0, 0, 0)]]).1.grid w x y d) :=
  claim_C4_invariant (by decide) (by decide) rfl (fun _ _ => 0)

/-- C5: `run` validates every word's length against the grid size before
any placement and before any output: if some word is too long, the run
returns the length error naming the first such word, and the result is the
same whatever the random draws would have been — no placement is attempted
and no file content is produced. -/
theorem claim_C5_length_validation {size m : Nat} {hard : Bool} {words : List String}
    {w : String}
    (h : words.find? (fun w2 => decide (size < w2.utf8ByteSize)) = some w)
    (rngs : List (List (Nat × Nat × Nat))) (r : Nat → Nat → Nat)
    (rngs2 : List (List (Nat × Nat × Nat))) (r2 : Nat → Nat → Nat) :
    run size m hard words rngs r = Except.error (tooLongMsg w size) ∧
    run size m hard words rngs r = run size m hard words rngs2 r2 :=
  ⟨run_too_long h rngs r, (run_too_long h rngs r).trans (run_too_long h rngs2 r2).symm⟩

/-- C5 witness: the word "ABC" in a 2×2 run fails with the length error
before anything else happens. -/
theorem claim_C5_witness :
    run 2 7 false [wordABC] [] (fun _ _ => 0) = Except.error (tooLongMsg wordABC 2) ∧
    run 2 7 false [wordABC] [] (fun _ _ => 0) =
      run 2 7 false [wordABC] [[(1, 1, 1)]] (fun _ _ => 5) :=
  claim_C5_length_validation (by decide) [] (fun _ _ => 0) [[(1, 1, 1)]] (fun _ _ => 5)

/-- C6: construction with `hard = true` selects all 8 directions and with
`hard = false` exactly the asymmetric 5-direction set
{Right, UpRight, Up, Down, DownRight}; and every direction a placement
candidate draws belongs to the grid's direction-choice list. -/
theorem claim_C6_direction_sets :
    (∀ (size : Int) (m : Nat),
      (PuzzleGrid.new size m true).dir_choices =
        [Direction.Right, Direction.UpRight, Direction.Up, Direction.UpLeft,
         Direction.Left, Direction.DownLeft, Direction.Down, Direction.DownRight] ∧
      (PuzzleGrid.new size m false).dir_choices =
        [Direction.Right, Direction.UpRight, Direction.Up, Direction.Down,
         Direction.DownRight]) ∧
    (∀ (g : PuzzleGrid) (r : Nat × Nat × Nat), g.dir_choices ≠ [] →
      (g.candidate r).2.2 ∈ g.dir_choices) :=
  ⟨fun _ _ => ⟨rfl, rfl⟩, fun _ r hne => candidate_dir_mem hne r⟩

/-- C6 witness: a concrete candidate drawn on the default easy grid uses a
direction from the 5-direction easy set. -/
theorem claim_C6_witness :
    ((PuzzleGrid.new 20 10000 false).candidate (3, 4, 7)).2.2 ∈
      (PuzzleGrid.new 20 10000 false).dir_choices :=
  claim_C6_direction_sets.2 (PuzzleGrid.new 20 10000 false) (3, 4, 7) (by decide)

/-- C7: after `fill_in`, no cell holds the blank sentinel; a cell that was
non-blank is unchanged, and a cell that was blank now holds an uppercase
letter A–Z. -/
theorem claim_C7_fill_in (g : PuzzleGrid) (r : Nat → Nat → Nat) (p q : Nat)
    (hq : q < g.grid.length) (hp : p < (g.grid.getD q []).length) :
    cellAtN (g.fill_in r).grid p q ≠ blank ∧
    (cellAtN g.grid p q ≠ blank → cellAtN (g.fill_in r).grid p q = cellAtN g.grid p q) ∧
    (cellAtN g.grid p q = blank → isUpperLetter (cellAtN (g.fill_in r).grid p q)) := by
  obtain ⟨hfill, hkeep⟩ := fill_cell_spec g r p q hq hp
  refine ⟨?_, hkeep, hfill⟩
  by_cases hb : cellAtN g.grid p q = blank
  · exact isUpperLetter_ne_blank (hfill hb)
  · rw [hkeep hb]
    exact hb

/-- C7 witness: cell (0,0) of a freshly filled 2×2 grid. -/
theorem claim_C7_witness :
    cellAtN ((PuzzleGrid.new 2 5 false).fill_in (fun _ _ => 0)).grid 0 0 ≠ blank ∧
    (cellAtN (PuzzleGrid.new 2 5 false).grid 0 0 ≠ blank →
      cellAtN ((PuzzleGrid.new 2 5 false).fill_in (fun _ _ => 0)).grid 0 0 =
        cellAtN (PuzzleGrid.new 2 5 false).grid 0 0) ∧
    (cellAtN (PuzzleGrid.new 2 5 false).grid 0 0 = blank →
      isUpperLetter (cellAtN ((PuzzleGrid.new 2 5 false).fill_in (fun _ _ => 0)).grid 0 0)) :=
  claim_C7_fill_in (PuzzleGrid.new 2 5 false) (fun _ _ => 0) 0 0 (by decide) (by decide)

/-- C8: `get_indeces` produces index sequences of the word's length whose
first entry is the start cell and whose consecutive entries differ by
exactly the direction's increment; in particular the 6-letter word
"Thanks" at (10,10) going DownRight yields x-indices [10..15] and
y-indices [10..15]. -/
theorem claim_C8_get_indeces (w : List Char) (x y : Int) (d : Direction) :
    ((get_indeces_int w x y d).1.length = w.length ∧
     (get_indeces_int w x y d).2.length = w.length) ∧
    (w ≠ [] → (get_indeces_int w x y d).1.headD 0 = x ∧
      (get_indeces_int w x y d).2.headD 0 = y) ∧
    (∀ i, i + 1 < w.length →
      (get_indeces_int w x y d).1.getD (i + 1) 0 =
        (get_indeces_int w x y d).1.getD i 0 + d.incrementors.1 ∧
      (get_indeces_int w x y d).2.getD (i + 1) 0 =
        (get_indeces_int w x y d).2.getD i 0 + d.incrementors.2) ∧
    get_indeces wordThanks.data 10 10 Direction.DownRight =
      some ([10, 11, 12, 13, 14, 15], [10, 11, 12, 13, 14, 15]) := by
  refine ⟨?_, ?_, ?_, by decide⟩
  · rw [get_indeces_int_eq]
    exact ⟨posList_length _ _ _, posList_length _ _ _⟩
  · intro hne
    rw [get_indeces_int_eq]
    obtain ⟨c, cs, rfl⟩ := List.exists_cons_of_ne_nil hne
    dsimp only
    rw [List.length_cons, posList_succ, posList_succ]
    exact ⟨rfl, rfl⟩
  · intro i hi
    rw [get_indeces_int_eq]
    dsimp only
    rw [posList_getD w.length (i + 1) x d.incrementors.1 hi,
      posList_getD w.length i x d.incrementors.1 (by omega),
      posList_getD w.length (i + 1) y d.incrementors.2 hi,
      posList_getD w.length i y d.incrementors.2 (by omega)]
    constructor <;> push_cast <;> ring

/-- C8 witness: the structural properties instantiated for "AB" at (2,3)
going Down. -/
theorem claim_C8_witness :
    ((get_indeces_int wordAB.data 2 3 Direction.Down).1.length = wordAB.data.length ∧
     (get_indeces_int wordAB.data 2 3 Direction.Down).2.length = wordAB.data.length) ∧
    ((get_indeces_int wordAB.data 2 3 Direction.Down).1.headD 0 = 2 ∧
     (get_indeces_int wordAB.data 2 3 Direction.Down).2.headD 0 = 3) ∧
    ((get_indeces_int wordAB.data 2 3 Direction.Down).1.getD 1 0 =
      (get_indeces_int wordAB.data 2 3 Direction.Down).1.getD 0 0 +
        Direction.Down.incrementors.1 ∧
     (get_indeces_int wordAB.data 2 3 Direction.Down).2.getD 1 0 =
      (get_indeces_int wordAB.data 2 3 Direction.Down).2.getD 0 0 +
        Direction.Down.incrementors.2) :=
  ⟨(claim_C8_get_indeces wordAB.data 2 3 Direction.Down).1,
   (claim_C8_get_indeces wordAB.data 2 3 Direction.Down).2.1 (by decide),
   (claim_C8_get_indeces wordAB.data 2 3 Direction.Down).2.2.1 0 (by decide)⟩

/-- C9: implicit safety of the index computation.  For a non-empty word
started inside the grid, if `placement_valid` accepts the candidate then
every coordinate of the word's cell sequence lies in `[0, size - 1]` on
both axes, and the `usize` conversions inside `get_indeces` all succeed —
even though the bound check only examines the single phantom end
coordinate. -/
theorem claim_C9_safety {g : PuzzleGrid} {w : List Char} {x y : Int} {d : Direction}
    (hw : w ≠ []) (hx0 : 0 ≤ x) (hx1 : x < g.size) (hy0 : 0 ≤ y) (hy1 : y < g.size)
    (hv : g.placement_valid w x y d = true) :
    (∀ p ∈ (get_indeces_int w x y d).1, 0 ≤ p ∧ p ≤ g.size - 1) ∧
    (∀ p ∈ (get_indeces_int w x y d).2, 0 ≤ p ∧ p ≤ g.size - 1) ∧
    (get_indeces w x y d).isSome = true := by
  have hbnd := valid_pos_bounds hx0 hx1 hy0 hy1 hv
  have h1 : ∀ p ∈ (get_indeces_int w x y d).1, 0 ≤ p ∧ p ≤ g.size - 1 := by
    intro p hp
    rw [get_indeces_int_eq] at hp
    dsimp only at hp
    obtain ⟨i, hi, rfl⟩ := posList_mem hp
    exact (hbnd i hi).1
  have h2 : ∀ p ∈ (get_indeces_int w x y d).2, 0 ≤ p ∧ p ≤ g.size - 1 := by
    intro p hp
    rw [get_indeces_int_eq] at hp
    dsimp only at hp
    obtain ⟨i, hi, rfl⟩ := posList_mem hp
    exact (hbnd i hi).2
  refine ⟨h1, h2, ?_⟩
  unfold get_indeces
  have t1 := tryMap_isSome (l := (get_indeces_int w x y d).1) (fun a ha => (h1 a ha).1)
  have t2 := tryMap_isSome (l := (get_indeces_int w x y d).2) (fun a ha => (h2 a ha).1)
  cases htm1 : tryMap (get_indeces_int w x y d).1 with
  | none =>
    rw [htm1] at t1
    simp at t1
  | some xs =>
    cases htm2 : tryMap (get_indeces_int w x y d).2 with
    | none =>
      rw [htm2] at t2
      simp at t2
    | some ys => rfl

/-- C9 witness: the safety conclusion at the valid concrete candidate
"AB" at (0,0) going Right on a fresh 3×3 grid. -/
theorem claim_C9_witness :
    (∀ p ∈ (get_indeces_int (sanitize wordAB) 0 0 Direction.Right).1,
      0 ≤ p ∧ p ≤ (PuzzleGrid.new 3 9 false).size - 1) ∧
    (∀ p ∈ (get_indeces_int (sanitize wordAB) 0 0 Direction.Right).2,
      0 ≤ p ∧ p ≤ (PuzzleGrid.new 3 9 false).size - 1) ∧
    (get_indeces (sanitize wordAB) 0 0 Direction.Right).isSome = true :=
  claim_C9_safety (g := PuzzleGrid.new 3 9 false) (by decide) (by decide) (by decide)
    (by decide) (by decide) (by decide)

/-- C10: atomicity of a failed placement.  Whenever `place` returns an
error, the grid matrix and the placed-word list are exactly as they were
before the call. -/
theorem claim_C10_atomicity {g : PuzzleGrid} {word : String}
    {rng : List (Nat × Nat × Nat)} {g2 : PuzzleGrid} {e : String}
    (h : g.place word rng = (g2, Except.error e)) :
    g2.grid = g.grid ∧ g2.entries = g.entries ∧ g2 = g := by
  have heq := place_err_state h
  exact ⟨by rw [heq], by rw [heq], heq⟩

/-- C10 witness: the failing placement of "AB" on a 1×1 grid leaves the
grid untouched. -/
theorem claim_C10_witness :
    (((PuzzleGrid.new 1 5 false).place wordAB [(0, 0, 0)]).1.grid =
      (PuzzleGrid.new 1 5 false).grid) ∧
    (((PuzzleGrid.new 1 5 false).place wordAB [(0, 0, 0)]).1.entries =
      (PuzzleGrid.new 1 5 false).entries) ∧
    ((PuzzleGrid.new 1 5 false).place wordAB [(0, 0, 0)]).1 = PuzzleGrid.new 1 5 false :=
  @claim_C10_atomicity (PuzzleGrid.new 1 5 false) wordAB [(0, 0, 0)]
    (((PuzzleGrid.new 1 5 false).place wordAB [(0, 0, 0)]).1) (placeFailMsg wordAB)
    (by rfl)
